import Mathlib

/-!
Verification development for the mdg-polls polling pipeline.

The definitions below are a shallow embedding of the repository's core
pipeline, translated from the JavaScript/TypeScript sources:
  * `scripts/update-polls.js`   : field extraction (`fetchPollDetails`),
    cycle assignment (`determineElectionYear`), merge into the dataset
    (`PollUpdater.run`), and persistence (`saveData`);
  * `scripts/fix-poll-classification.js` : the re-classification pass
    (`analyzePollScope`, `fixExistingClassification`);
  * the rolling-average smoother (`calculateRollingAverage`).

Modelling conventions:
  * calendar dates are epoch day numbers (days since 1970-01-01), which is
    faithful because every date in the pipeline is constructed from a
    date-only string and therefore sits at UTC midnight, so JS millisecond
    arithmetic and comparisons coincide with day-number arithmetic;
  * JS numbers that carry poll percentages are rationals; `Option ℚ`
    marks the possibility of `NaN` (from `parseFloat`), with `none` = NaN;
  * JS objects keyed by year are association lists `List (Nat × Election)`;
  * string scans implement the exact regular expressions of the source,
    including greedy matching with backtracking and leftmost-first search
    (ASCII case folding only, which covers every token the source matches).
-/

namespace MdgPolls

/-! ## Basic string helpers (JS `String.prototype.includes`, `toLowerCase`) -/

/-- Boolean prefix test on character lists. -/
def listPrefixB : List Char → List Char → Bool
  | [], _ => true
  | _ :: _, [] => false
  | p :: ps, t :: ts => p == t && listPrefixB ps ts

/-- Boolean infix (substring) test on character lists. -/
def listInfixB (pat : List Char) : List Char → Bool
  | [] => listPrefixB pat []
  | t :: ts => listPrefixB pat (t :: ts) || listInfixB pat ts

/-- JS `s.includes(pat)`. -/
def containsStr (s pat : String) : Bool := listInfixB pat.data s.data

/-- JS `s.toLowerCase()` (ASCII folding; every token the source compares
after lowercasing is ASCII). -/
def lowerStr (s : String) : String := String.mk (s.data.map Char.toLower)

/-- JS `s.trim()` (the whitespace the source pages contain). -/
def trimStr (s : String) : String :=
  let ws := fun c => c = ' ' || c = '\t' || c = '\n' || c = '\r'
  String.mk (((s.data.dropWhile ws).reverse.dropWhile ws).reverse)

/-! ## Calendar model -/

/-- A calendar date as extracted from a page (year, month, day). -/
structure PDate where
  year : Nat
  month : Nat
  day : Nat
deriving DecidableEq, Repr

def isLeap (y : Nat) : Bool := (y % 4 == 0 && y % 100 != 0) || y % 400 == 0

def daysInMonth (y m : Nat) : Nat :=
  if m = 2 then (if isLeap y then 29 else 28)
  else if m = 4 ∨ m = 6 ∨ m = 9 ∨ m = 11 then 30 else 31

/-- A date-only string `YYYY-MM-DD` parses to a valid JS `Date` exactly when
the month is 1–12 and the day is within the month (ECMA-262 date-time string
format); otherwise `new Date(...)` yields an Invalid Date. -/
def isValidPDate (d : PDate) : Bool :=
  1 ≤ d.month && d.month ≤ 12 && 1 ≤ d.day && d.day ≤ daysInMonth d.year d.month

/-- Epoch day number (days since 1970-01-01) of a civil date; standard
era-based Gregorian conversion, matching the JS `Date` value of a
`YYYY-MM-DD` string at UTC midnight. -/
def toEpochDay (pd : PDate) : Int :=
  let y : Int := if pd.month ≤ 2 then (pd.year : Int) - 1 else (pd.year : Int)
  let era : Int := y / 400
  let yoe : Int := y - era * 400
  let mp : Int := ((pd.month : Int) + 9) % 12
  let doy : Int := (153 * mp + 2) / 5 + (pd.day : Int) - 1
  let doe : Int := yoe * 365 + yoe / 4 - yoe / 100 + doy
  era * 146097 + doe - 719468

/-! ## Election dates (`ELECTION_DATES` in `update-polls.js`) -/

/-- 2013-09-09 as an epoch day number. -/
def day2013 : Int := 15957
/-- 2017-09-11 as an epoch day number. -/
def day2017 : Int := 17420
/-- 2021-09-13 as an epoch day number. -/
def day2021 : Int := 18883
/-- 2025-09-08 as an epoch day number. -/
def day2025 : Int := 20339

/-- `ELECTION_DATES[y]`; years outside the table are never produced by
`determineElectionYear`, the `0` default is unreachable in the pipeline. -/
def electionDateOf (y : Nat) : Int :=
  if y = 2013 then day2013
  else if y = 2017 then day2017
  else if y = 2021 then day2021
  else if y = 2025 then day2025
  else 0

/-- The `actualResults` literal of `PollUpdater.run` (2.8, 3.2, 3.9). -/
def actualResultOf (y : Nat) : Option ℚ :=
  if y = 2013 then some (14/5)
  else if y = 2017 then some (16/5)
  else if y = 2021 then some (39/10)
  else none

/-! ## Cycle assignment (`PollUpdater.determineElectionYear`) -/

/-- Day distance between a poll date and an election date:
`Math.abs(electionDate - pollDate)` in days. -/
def distDays (d e : Int) : Nat := (e - d).natAbs

/-- Minimum day distance from `d` to any of the four known elections
(stated independently of the code's scan, for the claim about it). -/
def minDist (d : Int) : Nat :=
  min (min (distDays d day2013) (distDays d day2017))
    (min (distDays d day2021) (distDays d day2025))

/-- `PollUpdater.determineElectionYear`.  Returns `none` for dates before the
2013 election ("before our tracking period"), otherwise scans the elections
in ascending key order (the iteration order of a JS object with integer-like
keys), keeping the first year that strictly decreases the running closest
distance, and returns it only when that distance is at most 730 days.
The sequential `if` chain below unrolls the `forEach` update loop. -/
def determineElectionYear (d : Int) : Option Nat :=
  if d < day2013 then none
  else
    let d13 := distDays d day2013
    let d17 := distDays d day2017
    let d21 := distDays d day2021
    let d25 := distDays d day2025
    let c2 := if d17 < d13 then d17 else d13
    let c3 := if d21 < c2 then d21 else c2
    let c4 := if d25 < c3 then d25 else c3
    let y : Nat :=
      if d25 < c3 then 2025
      else if d21 < c2 then 2021
      else if d17 < d13 then 2017
      else 2013
    if c4 ≤ 730 then some y else none

/-! ## Data model -/

inductive Scope where
  | national
  | regional
  | unknown
deriving DecidableEq, Repr

/-- A stored poll record, as built by `fetchNewPolls` (update-polls.js,
lines 256–263) and possibly rewritten by the classification fixer.
`region` is `none` when the JS object has no `region` key.
`mdgPercentage` is `none` when the JS value is `NaN`. -/
structure Poll where
  date : Int
  mdgPercentage : Option ℚ
  pollster : String
  daysUntilElection : Int
  url : String
  scope : Scope
  region : Option String
deriving DecidableEq, Repr

/-- One election cycle of the persisted dataset. -/
structure Election where
  electionDate : Int
  actualResult : Option ℚ
  polls : List Poll
deriving DecidableEq, Repr

/-- The persisted dataset: the `elections` object keyed by year.  (A JS
object iterates integer-like keys in ascending order; the merge code never
depends on that order, so an association list is a faithful rendering.) -/
abbrev Dataset := List (Nat × Election)

/-! ## Merger (`PollUpdater.run`, lines 310–341) -/

/-- Cycle creation: `if (!existingData.elections[electionYear]) { ... }`. -/
def newElection (y : Nat) : Election :=
  { electionDate := electionDateOf y, actualResult := actualResultOf y, polls := [] }

def ensureCycle (d : Dataset) (y : Nat) : Dataset :=
  match d.lookup y with
  | some _ => d
  | none => d ++ [(y, newElection y)]

/-- The dedup check `polls.some(p => p.url === poll.url)` on cycle `y`. -/
def urlPresent (d : Dataset) (y : Nat) (u : String) : Bool :=
  match d.lookup y with
  | some e => e.polls.any (fun q => q.url == u)
  | none => false

/-- In-place mutation of one cycle, rendered as a keyed map. -/
def updateCycle (d : Dataset) (y : Nat) (f : Election → Election) : Dataset :=
  d.map (fun ye => if ye.1 == y then (ye.1, f ye.2) else ye)

/-- One iteration of the `newPolls.forEach` insertion loop: create the cycle
if missing, skip when the url is already present, otherwise push the poll.
The Bool reports whether `addedCount` was incremented. -/
def addPoll (d : Dataset) (y : Nat) (p : Poll) : Dataset × Bool :=
  let d1 := ensureCycle d y
  match d1.lookup y with
  | none => (d1, false)
  | some e =>
    if e.polls.any (fun q => q.url == p.url) then (d1, false)
    else (updateCycle d1 y (fun el => { el with polls := el.polls ++ [p] }), true)

def mergeStep (acc : Dataset × Nat) (yp : Nat × Poll) : Dataset × Nat :=
  let r := addPoll acc.1 yp.1 yp.2
  (r.1, if r.2 then acc.2 + 1 else acc.2)

/-- Stable insertion of a poll into a list ordered by `key` (ascending). -/
def insertBy (key : Poll → Int) (p : Poll) : List Poll → List Poll
  | [] => [p]
  | q :: qs => if key q ≤ key p then q :: insertBy key p qs else p :: q :: qs

/-- Stable sort by a numeric key; models `Array.prototype.sort` with the
numeric comparators of the source (JS sort is stable). -/
def sortByKey (key : Poll → Int) (l : List Poll) : List Poll :=
  l.foldl (fun acc p => insertBy key p acc) []

/-- `polls.sort((a, b) => new Date(a.date) - new Date(b.date))` applied to
every cycle (the `Object.keys(...).forEach` at lines 336–338). -/
def sortCyclePolls (d : Dataset) : Dataset :=
  d.map (fun ye => (ye.1, { ye.2 with polls := sortByKey (fun p => p.date) ye.2.polls }))

/-- The merge of one fetched batch into the dataset (`PollUpdater.run`,
lines 310–341): insert each (electionYear, poll) with dedup by url, and
re-sort every cycle only when `addedCount > 0`. -/
def mergeBatch (d : Dataset) (batch : List (Nat × Poll)) : Dataset :=
  let r := batch.foldl mergeStep (d, 0)
  if 0 < r.2 then sortCyclePolls r.1 else r.1

/-- Boolean sortedness of a poll list w.r.t. a numeric key. -/
def sortedByKeyB (key : Poll → Int) : List Poll → Bool
  | [] => true
  | [_] => true
  | a :: b :: rest => decide (key a ≤ key b) && sortedByKeyB key (b :: rest)

/-- Every cycle's poll list is sorted ascending by date. -/
def datasetSortedB (d : Dataset) : Bool :=
  d.all (fun ye => sortedByKeyB (fun p => p.date) ye.2.polls)

/-! ## Trend smoother (`calculateRollingAverage`) -/

/-- One resampled output point; `y = none` models a `NaN` average. -/
structure AveragePoint where
  x : Int
  y : Option ℚ
deriving DecidableEq, Repr

/-- JS `+` on numbers that may be `NaN` (`none`): NaN propagates. -/
def nAdd (a b : Option ℚ) : Option ℚ :=
  match a, b with
  | some x, some y => some (x + y)
  | _, _ => none

/-- `Math.min(...)` over a nonempty list (the `[]` default is unreachable:
the smoother only calls this on lists of length at least 2). -/
def listMinI : List Int → Int
  | [] => 0
  | x :: xs => xs.foldl min x

def listMaxI : List Int → Int
  | [] => 0
  | x :: xs => xs.foldl max x

/-- The sampling positions `day = minDays; day <= maxDays; day += step` of
the smoother's `for` loop.  The fuel argument makes the recursion
structural; the smoother passes `(maxDays - minDays).toNat + 1`, which is
sufficient because the step is at least 3, so the rendered list is exactly
the JS iteration sequence. -/
def sampleDaysLoop (maxD step : Int) : Nat → Int → List Int
  | 0, _ => []
  | fuel + 1, day =>
    if day ≤ maxD then day :: sampleDaysLoop maxD step fuel (day + step) else []

/-- `calculateRollingAverage(polls, windowDays)` from the chart utilities:
fewer than 2 samples yield `[]`; otherwise resample on an adaptive step
(at least 3 days, about 100 points across the range), averaging the
samples whose `daysUntilElection` lies within `windowDays / 2` of the
sampling position and omitting positions with an empty window. -/
def calculateRollingAverage (polls : List Poll) (windowDays : ℚ) : List AveragePoint :=
  if polls.length < 2 then []
  else
    let sortedPolls := sortByKey (fun p => p.daysUntilElection) polls
    let minDays := listMinI (sortedPolls.map (fun p => p.daysUntilElection))
    let maxDays := listMaxI (sortedPolls.map (fun p => p.daysUntilElection))
    let step : Int := max 3 ((maxDays - minDays) / 100)
    let fuel : Nat := (maxDays - minDays).toNat + 1
    (sampleDaysLoop maxDays step fuel minDays).filterMap (fun (day : Int) =>
      let windowStart : ℚ := (day : ℚ) - windowDays / 2
      let windowEnd : ℚ := (day : ℚ) + windowDays / 2
      let pollsInWindow := sortedPolls.filter (fun p =>
        decide (windowStart ≤ (p.daysUntilElection : ℚ)) &&
        decide ((p.daysUntilElection : ℚ) ≤ windowEnd))
      if 0 < pollsInWindow.length then
        some { x := day,
               y := (pollsInWindow.foldl (fun s p => nAdd s p.mdgPercentage)
                       (some 0)).map (fun t => t / (pollsInWindow.length : ℚ)) }
      else none)

/-! ## Extractor (`PollUpdater.fetchPollDetails`)

The raw page is abstracted into the pieces of content the extractor reads:
the first blockquote's text, the body text, the title text, the hrefs of
the anchors, the script bodies, and the rows of the facts table. -/

structure UpdatePage where
  blockquote : String
  body : String
  title : String
  links : List String
  scripts : List String
  factTable : List (String × String)
  url : String
deriving DecidableEq, Repr

/-! ### Date regexes

`/(\d{1,2})\.(\d{1,2})\.(\d{4})/` (method 1) and
`/(\d{1,2})\.\s*(\w+)\s*(\d{4})/i` (methods 2 and 3), with JS semantics:
leftmost starting position first, greedy quantifiers with backtracking. -/

/-- Numeric value of a digit run. -/
def digitsVal (cs : List Char) : Nat :=
  cs.foldl (fun a c => a * 10 + (c.toNat - 48)) 0

/-- Split exactly `n` digits off the front, or fail. -/
def splitDigits : Nat → List Char → Option (List Char × List Char)
  | 0, l => some ([], l)
  | _ + 1, [] => none
  | n + 1, c :: rest =>
    if c.isDigit then
      match splitDigits n rest with
      | some (ds, r) => some (c :: ds, r)
      | none => none
    else none

def afterDot : List Char → Option (List Char)
  | '.' :: r => some r
  | _ => none

/-- One alternative of the numeric date pattern: `dn` day digits, a dot,
`mn` month digits, a dot, four year digits. -/
def tryDMY (dn mn : Nat) (l : List Char) : Option (Nat × Nat × Nat) :=
  (splitDigits dn l).bind fun p1 =>
  (afterDot p1.2).bind fun r1 =>
  (splitDigits mn r1).bind fun p2 =>
  (afterDot p2.2).bind fun r2 =>
  (splitDigits 4 r2).map fun p3 =>
  (digitsVal p1.1, digitsVal p2.1, digitsVal p3.1)

/-- Greedy matching of `\d{1,2}\.\d{1,2}\.\d{4}` at one position: the
backtracking order of the two `\d{1,2}` groups is (2,2), (2,1), (1,2), (1,1). -/
def matchDMYAt (l : List Char) : Option (Nat × Nat × Nat) :=
  tryDMY 2 2 l <|> tryDMY 2 1 l <|> tryDMY 1 2 l <|> tryDMY 1 1 l

def scanDMY : List Char → Option (Nat × Nat × Nat)
  | [] => none
  | c :: rest => matchDMYAt (c :: rest) <|> scanDMY rest

/-- First (leftmost) match of `/(\d{1,2})\.(\d{1,2})\.(\d{4})/` in `s`,
as (day, month, year). -/
def matchDMY (s : String) : Option (Nat × Nat × Nat) := scanDMY s.data

/-- JS `\w` (ASCII word character). -/
def isWordChar (c : Char) : Bool := c.isAlphanum || c = '_'

/-- JS `\s`, restricted to the whitespace the source pages contain. -/
def isSpaceChar (c : Char) : Bool := c = ' ' || c = '\t' || c = '\n' || c = '\r'

def skipSpaces (l : List Char) : List Char := l.dropWhile isSpaceChar

/-- Backtracking over the greedy `\w+` group: try a word of length `k`
first, then shorter, each followed by `\s*(\d{4})`. -/
def tryWordThenYear : Nat → List Char → Option (String × Nat)
  | 0, _ => none
  | k + 1, l =>
    let w := l.take (k + 1)
    if w.length = k + 1 && w.all isWordChar then
      match splitDigits 4 (skipSpaces (l.drop (k + 1))) with
      | some (ys, _) => some (String.mk w, digitsVal ys)
      | none => tryWordThenYear k l
    else tryWordThenYear k l

/-- `\d{dn}\.\s*(\w+)\s*(\d{4})` at one position.  The first `\s*` is
forcedly maximal because `\w` and `\s` are disjoint. -/
def tryLongAt (dn : Nat) (l : List Char) : Option (Nat × String × Nat) :=
  (splitDigits dn l).bind fun p1 =>
  (afterDot p1.2).bind fun r1 =>
  let r2 := skipSpaces r1
  let run := r2.takeWhile isWordChar
  (tryWordThenYear run.length r2).map fun wy => (digitsVal p1.1, wy.1, wy.2)

def matchLongAt (l : List Char) : Option (Nat × String × Nat) :=
  tryLongAt 2 l <|> tryLongAt 1 l

def scanLong : List Char → Option (Nat × String × Nat)
  | [] => none
  | c :: rest => matchLongAt (c :: rest) <|> scanLong rest

/-- First (leftmost) match of `/(\d{1,2})\.\s*(\w+)\s*(\d{4})/i` in `s`,
as (day, month word, year). -/
def matchLong (s : String) : Option (Nat × String × Nat) := scanLong s.data

/-- The `norwegianMonths` lookup table. -/
def norwegianMonthNum (s : String) : Option Nat :=
  if s == "januar" then some 1
  else if s == "februar" then some 2
  else if s == "mars" then some 3
  else if s == "april" then some 4
  else if s == "mai" then some 5
  else if s == "juni" then some 6
  else if s == "juli" then some 7
  else if s == "august" then some 8
  else if s == "september" then some 9
  else if s == "oktober" then some 10
  else if s == "november" then some 11
  else if s == "desember" then some 12
  else none

/-- Methods 2 and 3 of the date extraction: first match of the long-form
pattern, whose month word must be in the table; only the first match is
consulted (`String.prototype.match` without the global flag). -/
def methodNorwegian (s : String) : Option PDate :=
  match matchLong s with
  | none => none
  | some (d, w, y) =>
    match norwegianMonthNum (lowerStr w) with
    | some m => some ⟨y, m, d⟩
    | none => none

/-- Date extraction, `fetchPollDetails` lines 38–86: the blockquote's
numeric date, then the long-form pattern in the body, then in the title;
each later method runs only while `pollDate` is still null. -/
def extractDate (pg : UpdatePage) : Option PDate :=
  match matchDMY pg.blockquote with
  | some dmy => some ⟨dmy.2.2, dmy.2.1, dmy.1⟩
  | none =>
    match methodNorwegian pg.body with
    | some pd => some pd
    | none => methodNorwegian pg.title

/-! ### Percentage extraction (`fetchPollDetails` lines 88–112) -/

/-- The `mdgPercentage` JS variable: `none` = null (never assigned),
`some none` = NaN, `some (some v)` = the number `v`. -/
abbrev MdgState := Option (Option ℚ)

/-- JS truthiness of the variable: null, NaN and 0 are falsy. -/
def truthyState : MdgState → Bool
  | some (some v) => !(v == 0)
  | _ => false

def isNumDotChar (c : Char) : Bool := c.isDigit || c = '.'

/-- Try `/MDG=([0-9.]+)/` at one position. -/
def mdgMatchAt : List Char → Option (List Char)
  | 'M' :: 'D' :: 'G' :: '=' :: rest =>
    let run := rest.takeWhile isNumDotChar
    if run.length = 0 then none else some run
  | _ => none

def mdgScan : List Char → Option String
  | [] => none
  | c :: rest =>
    match mdgMatchAt (c :: rest) with
    | some run => some (String.mk run)
    | none => mdgScan rest

/-- First capture of `/MDG=([0-9.]+)/` in `s`. -/
def mdgCapture (s : String) : Option String := mdgScan s.data

/-- Fractional value of a digit run after the decimal point. -/
def fracVal (cs : List Char) : ℚ :=
  cs.foldr (fun c acc => (((c.toNat - 48 : Nat) : ℚ) + acc) / 10) 0

/-- `parseFloat` on a capture of `[0-9.]+`: the longest numeric prefix,
`none` (NaN) when the capture has no digits before a second dot. -/
def parseFloatCap (s : String) : Option ℚ :=
  let cs := s.data
  let intPart := cs.takeWhile Char.isDigit
  let rest := cs.drop intPart.length
  match rest with
  | '.' :: r2 =>
    let fracPart := r2.takeWhile Char.isDigit
    if intPart.isEmpty && fracPart.isEmpty then none
    else some (((digitsVal intPart : Nat) : ℚ) + fracVal fracPart)
  | _ => if intPart.isEmpty then none else some ((digitsVal intPart : Nat) : ℚ)

/-- Method 1, one anchor: `if (mdgMatch && !mdgPercentage) mdgPercentage = parseFloat(...)`. -/
def linkStep (st : MdgState) (href : String) : MdgState :=
  match mdgCapture href with
  | some cap => if truthyState st then st else some (parseFloatCap cap)
  | none => st

/-- Method 2, one script: the assignment has no first-wins guard, so a
later matching script overwrites an earlier value. -/
def scriptStep (st : MdgState) (sc : String) : MdgState :=
  if containsStr sc "MDG=" then
    match mdgCapture sc with
    | some cap => some (parseFloatCap cap)
    | none => st
  else st

/-- Percentage extraction: fold method 1 over the anchors selected by
`a[href*="MDG="]`, then run method 2 over all scripts only if the result
is still falsy (`if (!mdgPercentage)`). -/
def extractMdg (pg : UpdatePage) : MdgState :=
  let st1 := (pg.links.filter (fun h => containsStr h "MDG=")).foldl linkStep none
  if truthyState st1 then st1 else pg.scripts.foldl scriptStep st1

/-! ### Pollster and scope extraction -/

/-- `title.match(/^([^,]+)/)` then `.trim()`, default "Unknown". -/
def extractPollster (title : String) : String :=
  let pre := title.data.takeWhile (fun c => !(c == ','))
  if pre.isEmpty then "Unknown" else trimStr (String.mk pre)

/-- The facts-table loop: every row labelled "Område" re-assigns the scope,
"Hele landet" meaning national and anything else regional. -/
def extractScope (factTable : List (String × String)) : Scope :=
  factTable.foldl
    (fun sc lv =>
      if lv.1 == "Område" then
        (if lv.2 == "Hele landet" then Scope.national else Scope.regional)
      else sc)
    Scope.unknown

/-- The partial record returned by `fetchPollDetails`. -/
structure Details where
  date : Option PDate
  mdgPercentage : MdgState
  pollster : String
  url : String
  scope : Scope
deriving DecidableEq, Repr

/-- `PollUpdater.fetchPollDetails`: `null` when the page carries the
"poll does not exist" marker, otherwise the extracted partial record. -/
def fetchPollDetails (pg : UpdatePage) : Option Details :=
  if containsStr pg.body "Meningsmålingen eksisterer ikke i databasen" then none
  else
    some { date := extractDate pg
           mdgPercentage := extractMdg pg
           pollster := extractPollster pg.title
           url := pg.url
           scope := extractScope pg.factTable }

/-- The per-id acceptance test of `fetchNewPolls` (lines 247–266): the
record needs a date and a non-null percentage, an assigned election year
(an out-of-range date is an Invalid JS Date, for which
`determineElectionYear` returns null through NaN comparisons), and
`0 ≤ daysUntilElection ≤ 730`.  The built poll has no `region` key. -/
def acceptPoll (det : Details) : Option (Nat × Poll) :=
  match det.date with
  | none => none
  | some pd =>
    match det.mdgPercentage with
    | none => none
    | some pctVal =>
      let dayN := toEpochDay pd
      match (if isValidPDate pd then determineElectionYear dayN else none) with
      | none => none
      | some ey =>
        let du := electionDateOf ey - dayN
        if 0 ≤ du ∧ du ≤ 730 then
          some (ey,
            { date := dayN
              mdgPercentage := pctVal
              pollster := det.pollster
              daysUntilElection := du
              url := det.url
              scope := det.scope
              region := none })
        else none

/-! ## Re-classification pass (`fix-poll-classification.js`) -/

/-- The page content read by `PollClassificationFixer.analyzePollScope`:
body text, title text, and the concatenated `th` texts. -/
structure FixPage where
  body : String
  title : String
  th : String
deriving DecidableEq, Repr

/-- The `regions` list of the fixer (all lowercase). -/
def regionsList : List String :=
  ["oslo", "akershus", "østfold", "vestfold", "telemark", "buskerud",
   "oppland", "hedmark", "vest-agder", "aust-agder", "agder", "rogaland",
   "hordaland", "bergen", "sogn og fjordane", "møre og romsdal",
   "sør-trøndelag", "trøndelag", "trondheim", "nord-trøndelag", "nordland",
   "troms", "finnmark", "stavanger", "kristiansand", "tromsø",
   "drammen", "fredrikstad", "sarpsborg", "skien", "ålesund", "bodø",
   "molde", "haugesund", "sandnes", "tønsberg", "moss", "arendal"]

/-- `region.charAt(0).toUpperCase() + region.slice(1)` (ASCII upcasing; the
only divergence is for region names starting with a non-ASCII letter, whose
first letter JS would also upcase — the scope value is unaffected). -/
def capitalizeFirst (s : String) : String :=
  match s.data with
  | [] => ""
  | c :: rest => String.mk (c.toUpper :: rest)

/-- `PollClassificationFixer.analyzePollScope` (lines 25–64): method 1
looks for the national marker in the body or the lowercased title; method 2
scans the region list for `, region /` (case-insensitive) in the body or
the region name in the title; method 3 checks the table headers; otherwise
unknown.  (A network error also yields unknown, which a page with empty
content represents.) -/
def analyzePollScope (pg : FixPage) : Scope × Option String :=
  let title := lowerStr pg.title
  if containsStr pg.body ", hele landet /" || containsStr title "hele landet" then
    (Scope.national, none)
  else
    match regionsList.find? (fun r =>
        containsStr (lowerStr pg.body) (", " ++ r ++ " /") || containsStr title r) with
    | some r => (Scope.regional, some (capitalizeFirst r))
    | none =>
      if containsStr (lowerStr pg.th) "hele landet" then (Scope.national, none)
      else (Scope.unknown, none)

/-- One record of `fixExistingClassification` (lines 87–125): records not
currently marked national are skipped; a national record's scope is
overwritten with the re-analysis result and `region` is set or deleted
accordingly. -/
def fixPoll (poll : Poll) (pg : FixPage) : Poll :=
  if poll.scope ≠ Scope.national then poll
  else
    let res := analyzePollScope pg
    { poll with scope := res.1, region := res.2 }

/-! ## Persistence (`saveData` in `update-polls.js` and `poll-fetcher.js`) -/

/-- The file-system operations a save can perform. -/
inductive FsOp where
  | write (path : String) (content : String)
  | rename (src dst : String)
deriving DecidableEq, Repr

/-- `PollUpdater.saveData`: a single `fs.writeFileSync(this.dataFile, ...)`. -/
def saveDataOpsUpdater (dataFile content : String) : List FsOp :=
  [FsOp.write dataFile content]

/-- `PollFetcher.saveData`: also a single `fs.writeFileSync(this.dataFile, ...)`. -/
def saveDataOpsFetcher (dataFile content : String) : List FsOp :=
  [FsOp.write dataFile content]

/-- Modelled from the spec: "Persisted Dataset writes are atomic (write to a
temporary location, then rename)" — the write plan the spec describes, for
comparison with the plans the code actually produces. -/
def atomicWritePlan (target : String) (ops : List FsOp) : Prop :=
  ∃ tmp content, tmp ≠ target ∧ ops = [FsOp.write tmp content, FsOp.rename tmp target]

/-! ## Spec-side characterizations used by the corrected claims -/

/-- JS truthiness of a possibly-NaN number (0 and NaN are falsy). -/
def truthyVal : Option ℚ → Bool
  | some v => !(v == 0)
  | none => false

/-- The parsed candidate values of the calculation links, in document order. -/
def linkCandidates (links : List String) : List (Option ℚ) :=
  ((links.filter (fun h => containsStr h "MDG=")).filterMap mdgCapture).map parseFloatCap

/-- The parsed candidate values of the scripts, in document order. -/
def scriptCandidates (scripts : List String) : List (Option ℚ) :=
  ((scripts.filter (fun s => containsStr s "MDG=")).filterMap mdgCapture).map parseFloatCap

/-- Fold step of method 1 restated on candidate values. -/
def candStep (st : MdgState) (c : Option ℚ) : MdgState :=
  if truthyState st then st else some c

/-! ## Concrete fixtures for witnesses and counterexamples -/

def mkPoll (d : Int) (pct : ℚ) (du : Int) (u : String) (sc : Scope) : Poll :=
  { date := d, mdgPercentage := some pct, pollster := "P",
    daysUntilElection := du, url := u, scope := sc, region := none }

/-- An out-of-order 2021 cycle (dates 200 then 100). -/
def pollEarly : Poll := mkPoll 100 3 0 "http://p/?gallupid=1" Scope.national
def pollLate : Poll := mkPoll 200 4 0 "http://p/?gallupid=2" Scope.national
def pollMid : Poll := mkPoll 150 5 0 "http://p/?gallupid=3" Scope.national

def dsUnsorted : Dataset :=
  [(2021, { electionDate := day2021, actualResult := none, polls := [pollLate, pollEarly] })]

def dsSorted : Dataset :=
  [(2021, { electionDate := day2021, actualResult := none, polls := [pollEarly, pollLate] })]

/-- A page whose blockquote carries a numeric date. -/
def pgBlockquoteDate : UpdatePage :=
  { blockquote := "Publisert 27.8.2025", body := "", title := "",
    links := [], scripts := [], factTable := [], url := "u" }

/-- A page with no calculation link and one or two MDG-carrying scripts. -/
def pgOneScript : UpdatePage :=
  { blockquote := "", body := "", title := "",
    links := [], scripts := ["var x; MDG=3&f"], factTable := [], url := "u" }

def pgTwoScripts : UpdatePage :=
  { blockquote := "", body := "", title := "",
    links := [], scripts := ["var x; MDG=3&f", "var y; MDG=4&g"],
    factTable := [], url := "u" }

/-- A regional partial record (the area field said e.g. "Oslo") dated
2021-08-20 with an integer percentage, as in the spec's region-assignment example. -/
def detailsRegional : Details :=
  { date := some ⟨2021, 8, 20⟩, mdgPercentage := some (some 6),
    pollster := "Norstat for NRK", url := "http://p/?gallupid=9", scope := Scope.regional }

/-- The poll `acceptPoll` builds from `detailsRegional`. -/
def pollRegionalBuilt : Poll :=
  { date := 18859, mdgPercentage := some 6, pollster := "Norstat for NRK",
    daysUntilElection := 24, url := "http://p/?gallupid=9",
    scope := Scope.regional, region := none }

/-- A stored record structurally classified national (the facts table said
Område = "Hele landet"). -/
def factsNational : List (String × String) := [("Område", "Hele landet")]

def pollStructNational : Poll := mkPoll 18859 6 24 "http://p/?gallupid=7" Scope.national

/-- A re-analysis page with no recognizable markers (also what a failed
fetch yields). -/
def blankFixPage : FixPage := { body := "", title := "", th := "" }

/-- A re-analysis page carrying a region marker. -/
def regionFixPage : FixPage :=
  { body := "Norstat, oslo / kommunevalg", title := "", th := "" }

/-- Two smoother samples with the same value. -/
def sampleA : Poll := mkPoll 0 5 10 "a" Scope.national
def sampleB : Poll := mkPoll 0 5 20 "b" Scope.national

/-! # Theorems -/

/-- Sanity: the epoch-day constants for the four election dates agree with
the calendar conversion. -/
theorem electionDay_conversion :
    toEpochDay ⟨2013, 9, 9⟩ = day2013 ∧ toEpochDay ⟨2017, 9, 11⟩ = day2017 ∧
    toEpochDay ⟨2021, 9, 13⟩ = day2021 ∧ toEpochDay ⟨2025, 9, 8⟩ = day2025 := by
  decide

/-- C10: for every input list with fewer than 2 samples, the smoother
returns the empty series, for every window width. -/
theorem smoother_short_input (polls : List Poll) (windowDays : ℚ)
    (h : polls.length < 2) : calculateRollingAverage polls windowDays = [] := by
  unfold calculateRollingAverage
  rw [if_pos h]

theorem smoother_short_input_witness :
    ([sampleA] : List Poll).length < 2 ∧ calculateRollingAverage [sampleA] 7 = [] :=
  ⟨by decide, smoother_short_input [sampleA] 7 (by decide)⟩

/-- C9 counterexample: the updater's save is not a write-to-temp-then-rename
plan (it is a single direct write), already at the concrete dataset `"{}"`. -/
theorem saveData_not_atomic :
    ¬ atomicWritePlan "polling-data.json" (saveDataOpsUpdater "polling-data.json" "{}") := by
  rintro ⟨tmp, c, hne, heq⟩
  simp [saveDataOpsUpdater] at heq

/-- C9 amended: both `saveData` implementations write the serialized dataset
directly to the data file in a single write, with no temporary location and
no rename, so the write plan is never the atomic plan the spec describes. -/
theorem saveData_single_direct_write (df c : String) :
    saveDataOpsUpdater df c = [FsOp.write df c] ∧
    saveDataOpsFetcher df c = [FsOp.write df c] ∧
    ¬ atomicWritePlan df (saveDataOpsUpdater df c) := by
  refine ⟨rfl, rfl, ?_⟩
  rintro ⟨tmp, co, hne, heq⟩
  simp [saveDataOpsUpdater] at heq

/-- C4: the re-classification pass evaluated at the failing input: a record
whose scope was produced by the structural area field (Område =
"Hele landet", rule 1) is re-analyzed against a page without structural
evidence and is overwritten to unknown — or to regional when the free-text
scan matches a region — contradicting the required monotonicity. -/
theorem fixer_downgrades_structural_national :
    extractScope factsNational = Scope.national ∧
    pollStructNational.scope = Scope.national ∧
    (fixPoll pollStructNational blankFixPage).scope = Scope.unknown ∧
    (fixPoll pollStructNational regionFixPage).scope = Scope.regional := by
  decide

/-- C6: date extraction tries the blockquote's numeric date, then the
long-form pattern in the body, then in the title; the first success wins
and later methods are not consulted; a record with no extracted date is
rejected by the fetch filter and never reaches the dataset. -/
theorem date_extraction_priority (pg : UpdatePage) :
    (∀ dmy, matchDMY pg.blockquote = some dmy →
      extractDate pg = some ⟨dmy.2.2, dmy.2.1, dmy.1⟩) ∧
    (matchDMY pg.blockquote = none → ∀ pd, methodNorwegian pg.body = some pd →
      extractDate pg = some pd) ∧
    (matchDMY pg.blockquote = none → methodNorwegian pg.body = none →
      extractDate pg = methodNorwegian pg.title) ∧
    (extractDate pg = none → ∀ det, fetchPollDetails pg = some det →
      acceptPoll det = none) := by
  refine ⟨?_, ?_, ?_, ?_⟩
  · intro dmy h
    unfold extractDate
    rw [h]
  · intro h1 pd h2
    unfold extractDate
    rw [h1, h2]
  · intro h1 h2
    unfold extractDate
    rw [h1, h2]
  · intro hnone det hdet
    unfold fetchPollDetails at hdet
    split at hdet
    · cases hdet
    · injection hdet with h
      subst h
      simp only [acceptPoll, hnone]

theorem date_extraction_priority_witness :
    extractDate pgBlockquoteDate = some ⟨2025, 8, 27⟩ :=
  (date_extraction_priority pgBlockquoteDate).1 (27, 8, 2025) (by decide)

/-- The re-analysis result carries a region exactly when its scope is
regional. -/
theorem analyze_region_iff (pg : FixPage) :
    ((analyzePollScope pg).2).isSome = true ↔ (analyzePollScope pg).1 = Scope.regional := by
  simp only [analyzePollScope]
  by_cases h1 : (containsStr pg.body ", hele landet /"
      || containsStr (lowerStr pg.title) "hele landet") = true
  · rw [if_pos h1]
    simp
  · rw [if_neg h1]
    rcases hf : regionsList.find? (fun r =>
        containsStr (lowerStr pg.body) (", " ++ r ++ " /")
          || containsStr (lowerStr pg.title) r) with _ | r
    · by_cases h2 : containsStr (lowerStr pg.th) "hele landet" = true
      · rw [if_pos h2]
        simp
      · rw [if_neg h2]
        simp
    · simp

/-- C5 counterexample: the extractor/merger inserts a record whose scope is
regional but which carries no region field, violating the claimed
region-present-iff-regional invariant at insertion time. -/
theorem extracted_regional_poll_lacks_region :
    acceptPoll detailsRegional = some (2021, pollRegionalBuilt) ∧
    pollRegionalBuilt.scope = Scope.regional ∧ pollRegionalBuilt.region = none := by
  decide

/-- C5 amended: records built by the extraction/insertion path never carry a
region field, whatever their scope (so the iff fails exactly for regional
records it inserts); the re-classification pass does establish region
present iff scope regional for every record it rewrites. -/
theorem region_iff_regional_status :
    (∀ det y p, acceptPoll det = some (y, p) → p.region = none) ∧
    (∀ (poll : Poll) (pg : FixPage), poll.scope = Scope.national →
      (((fixPoll poll pg).region).isSome = true ↔
        (fixPoll poll pg).scope = Scope.regional)) := by
  constructor
  · intro det y p h
    unfold acceptPoll at h
    simp only [] at h
    split at h
    · cases h
    · split at h
      · cases h
      · split at h
        · cases h
        · split at h
          · rw [Option.some.injEq, Prod.mk.injEq] at h
            obtain ⟨-, hp⟩ := h
            subst hp
            rfl
          · cases h
  · intro poll pg hsc
    unfold fixPoll
    rw [if_neg (by simp [hsc])]
    exact analyze_region_iff pg

theorem region_iff_regional_status_witness :
    pollRegionalBuilt.region = none ∧
    (((fixPoll pollStructNational regionFixPage).region).isSome = true ↔
      (fixPoll pollStructNational regionFixPage).scope = Scope.regional) :=
  ⟨region_iff_regional_status.1 detailsRegional 2021 pollRegionalBuilt (by decide),
   region_iff_regional_status.2 pollStructNational regionFixPage (by decide)⟩

/-- C3 counterexample: 2013-01-01 (epoch day 15706) is 251 days from its
closest election, well within 730, yet the code assigns it no cycle — the
pre-2013 cutoff discards it. -/
theorem cycle_assignment_pre2013 :
    determineElectionYear 15706 = none ∧ minDist 15706 ≤ 730 := by
  decide

set_option maxHeartbeats 2000000 in
/-- C3 amended: for every poll date on or after the 2013 election date, the
record is assigned a cycle iff its distance to the closest election is at
most 730 days, and the assigned year attains that minimum distance; dates
before the 2013 election are always discarded. -/
theorem cycle_assignment_amended (d : Int) (h : day2013 ≤ d) :
    ((determineElectionYear d).isSome = true ↔ minDist d ≤ 730) ∧
    (∀ y, determineElectionYear d = some y →
      distDays d (electionDateOf y) = minDist d) := by
  have hnot : ¬ d < day2013 := not_lt.mpr h
  constructor
  · simp only [determineElectionYear, if_neg hnot, minDist, distDays]
    split_ifs <;>
      simp only [Option.isSome_some, Option.isSome_none, eq_self_iff_true, true_iff,
        Bool.false_eq_true, false_iff, not_le] <;>
      omega
  · intro y hy
    simp only [determineElectionYear, distDays] at hy
    rw [if_neg hnot] at hy
    split_ifs at hy <;>
      first
        | exact Option.noConfusion hy
        | (injection hy with hy2; subst hy2;
           norm_num [electionDateOf, minDist, distDays]; omega)

theorem cycle_assignment_amended_witness :
    (determineElectionYear 18153).isSome = true ∧
    distDays 18153 (electionDateOf 2021) = minDist 18153 ∧
    determineElectionYear 18152 = none := by
  have h := cycle_assignment_amended 18153 (by decide)
  exact ⟨h.1.mpr (by decide), h.2 2021 (by decide), by decide⟩

/-! ### Sorting lemmas -/

theorem mem_insertBy (key : Poll → Int) (p x : Poll) :
    ∀ l, x ∈ insertBy key p l ↔ x = p ∨ x ∈ l := by
  intro l
  induction l with
  | nil => simp [insertBy]
  | cons q qs ih =>
    by_cases hle : key q ≤ key p
    · rw [insertBy, if_pos hle]
      simp only [List.mem_cons, ih]
      tauto
    · rw [insertBy, if_neg hle]
      simp only [List.mem_cons]

theorem mem_sortByKey_aux (key : Poll → Int) (x : Poll) :
    ∀ (l : List Poll) (acc : List Poll),
      x ∈ l.foldl (fun a p => insertBy key p a) acc ↔ x ∈ acc ∨ x ∈ l := by
  intro l
  induction l with
  | nil => simp
  | cons q qs ih =>
    intro acc
    simp only [List.foldl_cons, ih, mem_insertBy, List.mem_cons]
    tauto

theorem mem_sortByKey (key : Poll → Int) (x : Poll) (l : List Poll) :
    x ∈ sortByKey key l ↔ x ∈ l := by
  unfold sortByKey
  rw [mem_sortByKey_aux]
  simp

theorem pairwise_insertBy (key : Poll → Int) (p : Poll) :
    ∀ l, List.Pairwise (fun a b => key a ≤ key b) l →
      List.Pairwise (fun a b => key a ≤ key b) (insertBy key p l) := by
  intro l
  induction l with
  | nil => intro _; simp [insertBy]
  | cons q qs ih =>
    intro h
    rw [List.pairwise_cons] at h
    by_cases hle : key q ≤ key p
    · rw [insertBy, if_pos hle]
      rw [List.pairwise_cons]
      refine ⟨?_, ih h.2⟩
      intro x hx
      rcases (mem_insertBy key p x qs).mp hx with hxp | hxq
      · subst hxp
        exact hle
      · exact h.1 x hxq
    · rw [insertBy, if_neg hle]
      rw [List.pairwise_cons]
      refine ⟨?_, List.pairwise_cons.mpr h⟩
      intro x hx
      rcases List.mem_cons.mp hx with hxq | hxq
      · subst hxq
        exact le_of_not_le hle
      · exact le_trans (le_of_not_le hle) (h.1 x hxq)

theorem pairwise_sortByKey (key : Poll → Int) (l : List Poll) :
    List.Pairwise (fun a b => key a ≤ key b) (sortByKey key l) := by
  unfold sortByKey
  have haux : ∀ (m : List Poll) (acc : List Poll),
      List.Pairwise (fun a b => key a ≤ key b) acc →
      List.Pairwise (fun a b => key a ≤ key b)
        (m.foldl (fun a p => insertBy key p a) acc) := by
    intro m
    induction m with
    | nil => intro acc h; exact h
    | cons q qs ih =>
      intro acc h
      exact ih _ (pairwise_insertBy key q acc h)
  exact haux l [] List.Pairwise.nil

theorem sortedByKeyB_iff_chain (key : Poll → Int) :
    ∀ l, sortedByKeyB key l = true ↔ List.Chain' (fun a b => key a ≤ key b) l
  | [] => by simp [sortedByKeyB]
  | [a] => by simp [sortedByKeyB]
  | a :: b :: l => by
    have hrec := sortedByKeyB_iff_chain key (b :: l)
    rw [sortedByKeyB, List.chain'_cons, Bool.and_eq_true, decide_eq_true_eq, hrec]

theorem sortedByKeyB_sortByKey (key : Poll → Int) (l : List Poll) :
    sortedByKeyB key (sortByKey key l) = true := by
  rw [sortedByKeyB_iff_chain]
  haveI : IsTrans Poll (fun a b => key a ≤ key b) := ⟨fun _ _ _ hab hbc => le_trans hab hbc⟩
  rw [List.chain'_iff_pairwise]
  exact pairwise_sortByKey key l

/-! ### Merge bookkeeping lemmas -/

theorem addPoll_false_eq (d : Dataset) (y : Nat) (p : Poll) (x : Dataset)
    (h : addPoll d y p = (x, false)) : x = ensureCycle d y := by
  unfold addPoll at h
  simp only [] at h
  split at h
  · rw [Prod.mk.injEq] at h
    exact h.1.symm
  · split at h
    · rw [Prod.mk.injEq] at h
      exact h.1.symm
    · rw [Prod.mk.injEq] at h
      exact Bool.noConfusion h.2

theorem ensureCycle_sorted (d : Dataset) (y : Nat)
    (h : datasetSortedB d = true) : datasetSortedB (ensureCycle d y) = true := by
  unfold ensureCycle
  split
  · exact h
  · simp only [datasetSortedB, List.all_append] at *
    simp [h, newElection, sortedByKeyB]

theorem mergeFold_count_mono (batch : List (Nat × Poll)) :
    ∀ (d : Dataset) (n : Nat), n ≤ (batch.foldl mergeStep (d, n)).2 := by
  induction batch with
  | nil => intro d n; exact le_refl n
  | cons yp rest ih =>
    intro d n
    rw [List.foldl_cons]
    rcases hadd : addPoll d yp.1 yp.2 with ⟨d2, added⟩
    cases added with
    | true =>
      have hstep : mergeStep (d, n) yp = (d2, n + 1) := by
        simp [mergeStep, hadd]
      rw [hstep]
      exact le_trans (Nat.le_succ n) (ih d2 (n + 1))
    | false =>
      have hstep : mergeStep (d, n) yp = (d2, n) := by
        simp [mergeStep, hadd]
      rw [hstep]
      exact ih d2 n

theorem mergeFold_no_insert_sorted (batch : List (Nat × Poll)) :
    ∀ (d : Dataset) (n : Nat), (batch.foldl mergeStep (d, n)).2 = n →
      datasetSortedB d = true →
      datasetSortedB (batch.foldl mergeStep (d, n)).1 = true := by
  induction batch with
  | nil => intro d n _ h; exact h
  | cons yp rest ih =>
    intro d n hcount h
    rw [List.foldl_cons] at hcount ⊢
    rcases hadd : addPoll d yp.1 yp.2 with ⟨d2, added⟩
    cases added with
    | true =>
      exfalso
      have hstep : mergeStep (d, n) yp = (d2, n + 1) := by
        simp [mergeStep, hadd]
      rw [hstep] at hcount
      have hmono := mergeFold_count_mono rest d2 (n + 1)
      omega
    | false =>
      have hstep : mergeStep (d, n) yp = (d2, n) := by
        simp [mergeStep, hadd]
      rw [hstep] at hcount ⊢
      have hd2 : d2 = ensureCycle d yp.1 := addPoll_false_eq d yp.1 yp.2 d2 hadd
      rw [hd2] at hcount ⊢
      exact ih _ n hcount (ensureCycle_sorted d yp.1 h)

theorem sortCyclePolls_sorted (d : Dataset) :
    datasetSortedB (sortCyclePolls d) = true := by
  unfold datasetSortedB sortCyclePolls
  rw [List.all_map, List.all_eq_true]
  intro ye _
  exact sortedByKeyB_sortByKey (fun p => p.date) ye.2.polls

/-- C2 counterexample: a batch whose only record is already present inserts
nothing, so the re-sort is skipped and the (out-of-order) input dataset is
returned unchanged — the sort invariant does not hold for every dataset and
batch after a merge. -/
theorem merge_no_insert_keeps_unsorted :
    datasetSortedB dsUnsorted = false ∧
    mergeBatch dsUnsorted [(2021, pollLate)] = dsUnsorted := by
  decide

/-- C2 amended: for every dataset whose cycles are already sorted by date
and every batch, the merge leaves every cycle sorted ascending by date
(when at least one poll is inserted the merge re-sorts every cycle; when
none is, the dataset is unchanged except for possibly created empty
cycles). -/
theorem merge_preserves_sorted (d : Dataset) (b : List (Nat × Poll))
    (h : datasetSortedB d = true) : datasetSortedB (mergeBatch d b) = true := by
  unfold mergeBatch
  simp only []
  rcases hr : b.foldl mergeStep (d, 0) with ⟨d2, n⟩
  by_cases hn : 0 < n
  · rw [if_pos hn]
    exact sortCyclePolls_sorted d2
  · rw [if_neg hn]
    have hn0 : n = 0 := by omega
    subst hn0
    have := mergeFold_no_insert_sorted b d 0 (by rw [hr]) h
    rw [hr] at this
    exact this

theorem merge_preserves_sorted_witness :
    datasetSortedB dsSorted = true ∧
    datasetSortedB (mergeBatch dsSorted [(2021, pollMid)]) = true :=
  ⟨by decide, merge_preserves_sorted dsSorted [(2021, pollMid)] (by decide)⟩

/-! ### Dedup-key lemmas for the idempotence of the merge -/

theorem lookup_append (k : Nat) (l₁ l₂ : Dataset) :
    (l₁ ++ l₂).lookup k = match l₁.lookup k with
      | some v => some v
      | none => l₂.lookup k := by
  induction l₁ with
  | nil => simp [List.lookup]
  | cons a t ih =>
    rcases a with ⟨ka, va⟩
    by_cases hk : k == ka
    · simp [List.lookup, hk]
    · simp [List.lookup, hk, ih]

theorem ensureCycle_of_mem (d : Dataset) (y : Nat) (e : Election)
    (hl : d.lookup y = some e) : ensureCycle d y = d := by
  unfold ensureCycle
  rw [hl]

theorem ensureCycle_lookup_self (d : Dataset) (y : Nat) :
    ∃ e, (ensureCycle d y).lookup y = some e := by
  unfold ensureCycle
  rcases hl : d.lookup y with _ | e
  · rw [lookup_append, hl]
    exact ⟨newElection y, by simp [List.lookup]⟩
  · exact ⟨e, hl⟩

theorem ensureCycle_lookup_of_some (d : Dataset) (y k : Nat) (e : Election)
    (h : d.lookup k = some e) : (ensureCycle d y).lookup k = some e := by
  unfold ensureCycle
  rcases hl : d.lookup y with _ | e2
  · rw [lookup_append, h]
  · exact h

theorem updateCycle_cons (ka : Nat) (va : Election) (t : Dataset) (y : Nat)
    (f : Election → Election) :
    updateCycle ((ka, va) :: t) y f =
      (if ka == y then (ka, f va) else (ka, va)) :: updateCycle t y f := rfl

theorem lookup_cons (k ka : Nat) (va : Election) (t : Dataset) :
    List.lookup k ((ka, va) :: t) = cond (k == ka) (some va) (List.lookup k t) := rfl

theorem lookup_updateCycle (d : Dataset) (y : Nat) (f : Election → Election) (k : Nat) :
    (updateCycle d y f).lookup k =
      if k = y then (d.lookup k).map f else d.lookup k := by
  induction d with
  | nil => simp [updateCycle, List.lookup]
  | cons a t ih =>
    rcases a with ⟨ka, va⟩
    rw [updateCycle_cons]
    by_cases hky : ka = y
    · subst hky
      by_cases hk : k = ka
      · subst hk
        simp [lookup_cons]
      · simp [lookup_cons, beq_eq_false_iff_ne.mpr hk, hk, ih]
    · by_cases hk : k = ka
      · subst hk
        simp [lookup_cons, beq_eq_false_iff_ne.mpr hky, hky]
      · simp [lookup_cons, beq_eq_false_iff_ne.mpr hky,
          beq_eq_false_iff_ne.mpr hk, hk, ih]

/-- The dedup check succeeds on cycle `y` after `addPoll d y p`. -/
theorem addPoll_establishes (d : Dataset) (y : Nat) (p : Poll) :
    urlPresent (addPoll d y p).1 y p.url = true := by
  unfold addPoll
  simp only []
  split
  · rename_i hl
    rcases ensureCycle_lookup_self d y with ⟨e, he⟩
    rw [he] at hl
    cases hl
  · rename_i e hl
    split
    · rename_i hdup
      unfold urlPresent
      rw [hl]
      exact hdup
    · unfold urlPresent
      rw [lookup_updateCycle, if_pos rfl, hl]
      simp

/-- `addPoll` never removes a url from any cycle. -/
theorem addPoll_preserves (d : Dataset) (y : Nat) (p : Poll) (k : Nat) (u : String)
    (h : urlPresent d k u = true) : urlPresent (addPoll d y p).1 k u = true := by
  unfold urlPresent at h
  rcases hk : d.lookup k with _ | e
  · rw [hk] at h
    cases h
  · rw [hk] at h
    have hk2 : (ensureCycle d y).lookup k = some e := ensureCycle_lookup_of_some d y k e hk
    unfold addPoll
    simp only []
    split
    · unfold urlPresent
      rw [hk2]
      exact h
    · split
      · unfold urlPresent
        rw [hk2]
        exact h
      · unfold urlPresent
        rw [lookup_updateCycle]
        by_cases hky : k = y
        · rw [if_pos hky, hk2]
          show ((e.polls ++ [p]).any fun q => q.url == u) = true
          have h2 : (e.polls.any fun q => q.url == u) = true := h
          rw [List.any_append]
          simp [h2]
        · rw [if_neg hky, hk2]
          exact h

/-- If the url is already present in the target cycle, the record is
skipped and the dataset is returned unchanged. -/
theorem addPoll_skip (d : Dataset) (y : Nat) (p : Poll)
    (h : urlPresent d y p.url = true) : addPoll d y p = (d, false) := by
  unfold urlPresent at h
  rcases hl : d.lookup y with _ | e
  · rw [hl] at h
    cases h
  · rw [hl] at h
    unfold addPoll
    rw [ensureCycle_of_mem d y e hl]
    simp only []
    split
    · rename_i hl2
      rw [hl] at hl2
    · rename_i e2 hl2
      rw [hl] at hl2
      injection hl2 with he
      subst he
      rw [if_pos h]

theorem lookup_sortCyclePolls (d : Dataset) (k : Nat) :
    (sortCyclePolls d).lookup k =
      (d.lookup k).map (fun e => { e with polls := sortByKey (fun p => p.date) e.polls }) := by
  induction d with
  | nil => simp [sortCyclePolls, List.lookup]
  | cons a t ih =>
    rcases a with ⟨ka, va⟩
    by_cases hk : k == ka
    · simp [sortCyclePolls, List.lookup, hk]
    · simp [sortCyclePolls, List.lookup, hk] at ih ⊢
      exact ih

theorem sortCyclePolls_preserves (d : Dataset) (k : Nat) (u : String)
    (h : urlPresent d k u = true) : urlPresent (sortCyclePolls d) k u = true := by
  unfold urlPresent at h ⊢
  rcases hk : d.lookup k with _ | e
  · rw [hk] at h
    cases h
  · rw [hk] at h
    rw [lookup_sortCyclePolls, hk]
    show ((sortByKey (fun p => p.date) e.polls).any fun q => q.url == u) = true
    rw [List.any_eq_true] at h ⊢
    rcases h with ⟨q, hq, hqu⟩
    exact ⟨q, (mem_sortByKey (fun p => p.date) q e.polls).mpr hq, hqu⟩

theorem mergeFold_preserves (batch : List (Nat × Poll)) :
    ∀ (d : Dataset) (n : Nat) (k : Nat) (u : String),
      urlPresent d k u = true →
      urlPresent ((batch.foldl mergeStep (d, n)).1) k u = true := by
  induction batch with
  | nil => intro d n k u h; exact h
  | cons yp rest ih =>
    intro d n k u h
    rw [List.foldl_cons]
    rcases hadd : addPoll d yp.1 yp.2 with ⟨d2, added⟩
    have hstep : mergeStep (d, n) yp = (d2, if added then n + 1 else n) := by
      simp [mergeStep, hadd]
    rw [hstep]
    have h2 : urlPresent d2 k u = true := by
      have := addPoll_preserves d yp.1 yp.2 k u h
      rw [hadd] at this
      exact this
    exact ih d2 _ k u h2

theorem mergeFold_establishes (batch : List (Nat × Poll)) :
    ∀ (d : Dataset) (n : Nat) (yp : Nat × Poll), yp ∈ batch →
      urlPresent ((batch.foldl mergeStep (d, n)).1) yp.1 yp.2.url = true := by
  induction batch with
  | nil => intro d n yp hyp; cases hyp
  | cons hd rest ih =>
    intro d n yp hyp
    rw [List.foldl_cons]
    rcases hadd : addPoll d hd.1 hd.2 with ⟨d2, added⟩
    have hstep : mergeStep (d, n) hd = (d2, if added then n + 1 else n) := by
      simp [mergeStep, hadd]
    rw [hstep]
    rcases List.mem_cons.mp hyp with hh | ht
    · subst hh
      have hest := addPoll_establishes d yp.1 yp.2
      rw [hadd] at hest
      exact mergeFold_preserves rest d2 _ yp.1 yp.2.url hest
    · exact ih d2 _ yp ht

theorem mergeFold_all_present (batch : List (Nat × Poll)) :
    ∀ (d : Dataset) (n : Nat),
      (∀ yp ∈ batch, urlPresent d yp.1 yp.2.url = true) →
      batch.foldl mergeStep (d, n) = (d, n) := by
  induction batch with
  | nil => intro d n _; rfl
  | cons hd rest ih =>
    intro d n hall
    rw [List.foldl_cons]
    have hskip := addPoll_skip d hd.1 hd.2 (hall hd (List.mem_cons_self hd rest))
    have hstep : mergeStep (d, n) hd = (d, n) := by
      simp [mergeStep, hskip]
    rw [hstep]
    exact ih d n (fun yp hyp => hall yp (List.mem_cons_of_mem hd hyp))

/-- C1: merging the same batch a second time produces a dataset identical
to the one obtained after merging it once — after one merge every batch
record's url is present in its target cycle, so the second merge skips
every record, increments nothing, performs no re-sort, and returns its
input unchanged. -/
theorem merge_idempotent (d : Dataset) (b : List (Nat × Poll)) :
    mergeBatch (mergeBatch d b) b = mergeBatch d b := by
  have hall : ∀ yp ∈ b, urlPresent (mergeBatch d b) yp.1 yp.2.url = true := by
    intro yp hyp
    unfold mergeBatch
    simp only []
    by_cases hn : 0 < (b.foldl mergeStep (d, 0)).2
    · rw [if_pos hn]
      exact sortCyclePolls_preserves _ _ _ (mergeFold_establishes b d 0 yp hyp)
    · rw [if_neg hn]
      exact mergeFold_establishes b d 0 yp hyp
  conv_lhs => rw [mergeBatch]
  rw [mergeFold_all_present b (mergeBatch d b) 0 hall]
  simp

/-! ### Percentage-extraction characterization -/

theorem truthyState_some (c : Option ℚ) : truthyState (some c) = truthyVal c := by
  cases c <;> rfl

theorem candFold_truthy (cands : List (Option ℚ)) :
    ∀ st : MdgState, truthyState st = true → cands.foldl candStep st = st := by
  induction cands with
  | nil => intro st _; rfl
  | cons c cs ih =>
    intro st hst
    rw [List.foldl_cons]
    have hstep : candStep st c = st := by simp [candStep, hst]
    rw [hstep]
    exact ih st hst

theorem candFold_char (cands : List (Option ℚ)) :
    ∀ st : MdgState, truthyState st = false →
      cands.foldl candStep st =
        (match cands.find? truthyVal with
         | some c => some c
         | none =>
           match cands.getLast? with
           | some c => some c
           | none => st) := by
  induction cands with
  | nil => intro st _; rfl
  | cons c cs ih =>
    intro st hst
    rw [List.foldl_cons]
    have hstep : candStep st c = some c := by simp [candStep, hst]
    rw [hstep]
    by_cases htr : truthyVal c = true
    · rw [List.find?_cons_of_pos cs htr]
      exact candFold_truthy cs (some c) ((truthyState_some c).trans htr)
    · have htrf : truthyVal c = false := by
        cases htv : truthyVal c
        · rfl
        · exact absurd htv htr
      have htr2 : truthyState (some c) = false := (truthyState_some c).trans htrf
      rw [ih (some c) htr2, List.find?_cons_of_neg cs htr]
      rcases hfind : cs.find? truthyVal with _ | x
      · rcases hcs : cs with _ | ⟨c2, cs2⟩
        · rfl
        · rw [List.getLast?_cons_cons]
          rcases hgl : (c2 :: cs2).getLast? with _ | x2
          · exact absurd (List.getLast?_eq_none_iff.mp hgl) (by simp)
          · rfl
      · rfl

/-- Method 1 restated on parsed candidate values. -/
theorem linkFold_eq_candFold (hs : List String) :
    ∀ st : MdgState, hs.foldl linkStep st =
      ((hs.filterMap mdgCapture).map parseFloatCap).foldl candStep st := by
  induction hs with
  | nil => intro st; rfl
  | cons h t ih =>
    intro st
    rw [List.foldl_cons]
    rcases hc : mdgCapture h with _ | cap
    · have hstep : linkStep st h = st := by simp [linkStep, hc]
      rw [hstep, List.filterMap_cons_none hc]
      exact ih st
    · have hstep : linkStep st h = candStep st (parseFloatCap cap) := by
        simp [linkStep, candStep, hc]
      rw [hstep, List.filterMap_cons_some hc, List.map_cons, List.foldl_cons]
      exact ih _

theorem scriptCandidates_cons_skip (s : String) (t : List String)
    (hcon : ¬ containsStr s "MDG=" = true) :
    scriptCandidates (s :: t) = scriptCandidates t := by
  unfold scriptCandidates
  rw [List.filter_cons, if_neg hcon]

theorem scriptCandidates_cons_nocap (s : String) (t : List String)
    (hcon : containsStr s "MDG=" = true) (hc : mdgCapture s = none) :
    scriptCandidates (s :: t) = scriptCandidates t := by
  unfold scriptCandidates
  rw [List.filter_cons, if_pos hcon, List.filterMap_cons_none hc]

theorem scriptCandidates_cons_cap (s : String) (t : List String) (cap : String)
    (hcon : containsStr s "MDG=" = true) (hc : mdgCapture s = some cap) :
    scriptCandidates (s :: t) = parseFloatCap cap :: scriptCandidates t := by
  unfold scriptCandidates
  rw [List.filter_cons, if_pos hcon, List.filterMap_cons_some hc, List.map_cons]

/-- Method 2 overwrites on every matching script: the last capture wins. -/
theorem scriptFold_char (scs : List String) :
    ∀ st : MdgState, scs.foldl scriptStep st =
      (match (scriptCandidates scs).getLast? with
       | some c => some c
       | none => st) := by
  induction scs with
  | nil => intro st; rfl
  | cons s t ih =>
    intro st
    rw [List.foldl_cons]
    by_cases hcon : containsStr s "MDG=" = true
    · rcases hc : mdgCapture s with _ | cap
      · have hstep : scriptStep st s = st := by simp [scriptStep, hcon, hc]
        rw [hstep, ih st, scriptCandidates_cons_nocap s t hcon hc]
      · have hstep : scriptStep st s = some (parseFloatCap cap) := by
          simp [scriptStep, hcon, hc]
        rw [hstep, ih (some (parseFloatCap cap)),
          scriptCandidates_cons_cap s t cap hcon hc]
        rcases hcs : scriptCandidates t with _ | ⟨c2, cs2⟩
        · rfl
        · rw [List.getLast?_cons_cons]
          rcases hgl : (c2 :: cs2).getLast? with _ | x2
          · exact absurd (List.getLast?_eq_none_iff.mp hgl) (by simp)
          · rfl
    · have hstep : scriptStep st s = st := by simp [scriptStep, hcon]
      rw [hstep, ih st, scriptCandidates_cons_skip s t hcon]

/-- C7 counterexample: with no calculation link and two matching scripts,
the extracted value is the second script's 4, not the first script's 3 —
a later candidate overrides an earlier extracted value. -/
theorem mdg_last_script_overrides :
    extractMdg pgOneScript = some (some 3) ∧
    extractMdg pgTwoScripts = some (some 4) ∧
    ¬ extractMdg pgTwoScripts = some (some 3) := by
  refine ⟨by decide, by decide, by decide⟩

/-- C7 amended: the tracked party's value is the first calculation-link
parameter that parses to a truthy (nonzero, non-NaN) number, in which case
the script fallback is not consulted; if no link parameter is truthy, the
fallback scans the scripts and the last matching script's value wins; if no
script matches either, the last (falsy) link candidate is kept. -/
theorem mdg_extraction_amended (pg : UpdatePage) :
    extractMdg pg =
      (match (linkCandidates pg.links).find? truthyVal with
       | some v => some v
       | none =>
         match (scriptCandidates pg.scripts).getLast? with
         | some c => some c
         | none => (linkCandidates pg.links).getLast?) := by
  have hlc : ((pg.links.filter (fun h => containsStr h "MDG=")).filterMap
      mdgCapture).map parseFloatCap = linkCandidates pg.links := rfl
  rcases hfind : (linkCandidates pg.links).find? truthyVal with _ | c
  · have hst1 : (linkCandidates pg.links).foldl candStep none =
        (linkCandidates pg.links).getLast? := by
      rw [candFold_char _ none rfl, hfind]
      rcases hgl : (linkCandidates pg.links).getLast? with _ | x <;> rfl
    have hfalse : truthyState ((linkCandidates pg.links).getLast?) = false := by
      rcases hgl : (linkCandidates pg.links).getLast? with _ | c2
      · rfl
      · rw [truthyState_some]
        have hmem := List.mem_of_getLast?_eq_some hgl
        have hnot := List.find?_eq_none.mp hfind c2 hmem
        cases htv : truthyVal c2
        · rfl
        · exact absurd htv hnot
    unfold extractMdg
    simp only []
    rw [linkFold_eq_candFold, hlc, hst1, if_neg (by simp [hfalse])]
    rw [scriptFold_char]
  · have htrue : truthyVal c = true := List.find?_some hfind
    have hst1 : (linkCandidates pg.links).foldl candStep none = some c := by
      rw [candFold_char _ none rfl, hfind]
    unfold extractMdg
    simp only []
    rw [linkFold_eq_candFold, hlc, hst1,
      if_pos (show truthyState (some c) = true from (truthyState_some c).trans htrue)]

/-! ### Smoother stability -/

theorem nAdd_fold_const (c : ℚ) :
    ∀ (l : List Poll) (s : ℚ),
      (∀ p ∈ l, p.mdgPercentage = some c) →
      l.foldl (fun acc p => nAdd acc p.mdgPercentage) (some s) =
        some (s + l.length * c) := by
  intro l
  induction l with
  | nil =>
    intro s _
    simp
  | cons p t ih =>
    intro s h
    rw [List.foldl_cons]
    have hp : p.mdgPercentage = some c := h p (List.mem_cons_self p t)
    have hstep : nAdd (some s) p.mdgPercentage = some (s + c) := by
      rw [hp]
      rfl
    rw [hstep, ih (s + c) (fun q hq => h q (List.mem_cons_of_mem p hq))]
    congr 1
    rw [List.length_cons]
    push_cast
    ring

/-- C8: a constant-value input series produces a constant-value resampled
output across its full domain: every emitted point of
`calculateRollingAverage` carries the common value, for every window
width. -/
theorem smoother_constant_input (polls : List Poll) (windowDays c : ℚ)
    (_hne : polls ≠ []) (hc : ∀ p ∈ polls, p.mdgPercentage = some c) :
    ((calculateRollingAverage polls windowDays).all
      (fun pt => pt.y == some c)) = true := by
  unfold calculateRollingAverage
  by_cases hlen : polls.length < 2
  · rw [if_pos hlen]
    rfl
  · rw [if_neg hlen]
    simp only []
    rw [List.all_eq_true]
    intro pt hpt
    rw [List.mem_filterMap] at hpt
    rcases hpt with ⟨day, hday, hf⟩
    split at hf
    · rename_i hwin
      injection hf with hf2
      subst hf2
      have hmem : ∀ p ∈ (sortByKey (fun p => p.daysUntilElection) polls).filter
          (fun p =>
            decide ((day : ℚ) - windowDays / 2 ≤ (p.daysUntilElection : ℚ)) &&
            decide ((p.daysUntilElection : ℚ) ≤ (day : ℚ) + windowDays / 2)),
          p.mdgPercentage = some c := by
        intro p hp
        exact hc p ((mem_sortByKey (fun p => p.daysUntilElection) p polls).mp
          (List.mem_filter.mp hp).1)
      rw [beq_iff_eq]
      rw [nAdd_fold_const c _ 0 hmem, Option.map_some']
      have hn : ((List.length ((sortByKey (fun p => p.daysUntilElection) polls).filter
          (fun p =>
            decide ((day : ℚ) - windowDays / 2 ≤ (p.daysUntilElection : ℚ)) &&
            decide ((p.daysUntilElection : ℚ) ≤ (day : ℚ) + windowDays / 2))) : ℚ)) ≠ 0 := by
        rw [Nat.cast_ne_zero]
        omega
      rw [zero_add, mul_comm, mul_div_assoc, div_self hn, mul_one]
    · cases hf

theorem smoother_constant_input_witness :
    ([sampleA, sampleB] : List Poll) ≠ [] ∧
    ((calculateRollingAverage [sampleA, sampleB] 7).all
      (fun pt => pt.y == some 5)) = true :=
  ⟨by decide,
   smoother_constant_input [sampleA, sampleB] 7 5 (by decide) (by decide)⟩

end MdgPolls
